import Mathlib

/-!
Shallow embedding of the block/transaction execution orchestration layer of
the wrapper-evm repository: the Ethereum block executor, the EIP-4788 and
EIP-7002 system calls, the system-call environment override of `EthEvm`,
the post-block balance-increment calculator, and the precompile registry.

Machine integers of the source (u64/u128/U256) are modelled as `Nat`; the
claims under study never exercise overflow.  Addresses and hashes are `Nat`.
Hash maps and hash sets of the source are modelled as association lists and
lists, with lookup/insert/remove operations that agree extensionally with
the source's map semantics (iteration order of the source maps is
unspecified).
-/

/-- Addresses (20-byte) modelled as naturals. -/
abbrev Address := Nat

/-- 32-byte words (B256) modelled as naturals; the zero hash is `0`. -/
abbrev B256 := Nat

/-- Byte strings modelled as lists of naturals. -/
abbrev Bytes := List Nat

/-- Block environment (`revm::context::BlockEnv`): the fields read and
temporarily overridden by this layer. -/
structure BlockEnv where
  number : Nat
  timestamp : Nat
  gasLimit : Nat
  basefee : Nat
  beneficiary : Address
  deriving Repr, DecidableEq

/-- The hardfork/spec capability consumed by this layer
(`EthereumHardforks` plus the reward schedule of `block/calc.rs`), modelled
at the interface boundary as a record of functions. -/
structure HardforkSpec where
  isCancunActiveAtTimestamp : Nat → Bool
  isShanghaiActiveAtTimestamp : Nat → Bool
  /-- `calc::base_block_reward(spec, number)`: `none` when rewards are
  disabled (post-merge). -/
  baseBlockReward : Nat → Option Nat
  /-- `calc::ommer_reward(base, block_number, ommer_number)`. -/
  ommerReward : Nat → Nat → Nat → Nat
  /-- `calc::block_reward(base, ommer_count)`. -/
  blockReward : Nat → Nat → Nat

/-- Call output of the backend (`revm`'s `Output`). -/
inductive EvmOutput where
  | call (bytes : Bytes)
  | create (bytes : Bytes) (addr : Option Address)
  deriving Repr, DecidableEq

/-- `Output::into_data`. -/
def EvmOutput.intoData : EvmOutput → Bytes
  | .call b => b
  | .create b _ => b

/-- A log entry. -/
structure EvmLog where
  addr : Address
  data : Bytes
  deriving Repr, DecidableEq

/-- `revm`'s `ExecutionResult`, parameterized by the halt-reason type. -/
inductive ExecutionResult (H : Type) where
  | success (gasUsed : Nat) (gasRefunded : Nat) (logs : List EvmLog) (output : EvmOutput)
  | revert (gasUsed : Nat) (output : Bytes)
  | halt (reason : H) (gasUsed : Nat)
  deriving Repr, DecidableEq

/-- `ExecutionResult::gas_used`. -/
def ExecutionResult.gasUsed {H : Type} : ExecutionResult H → Nat
  | .success g _ _ _ => g
  | .revert g _ => g
  | .halt _ g => g

/-- A state diff: account entries keyed by address, with opaque per-account
payload `A`. -/
abbrev StateDiff (A : Type) := List (Address × A)

/-- `revm`'s `ResultAndState`. -/
structure ResultAndState (H A : Type) where
  result : ExecutionResult H
  state : StateDiff A

/-- The tagged content of the strings built by `format!` for the
`WithdrawalRequestsContractCall` validation error: a failed backend call,
a revert (carrying the revert output), or a halt (carrying the reason). -/
inductive SysCallMessage (ε H : Type) where
  | execFailed (e : ε)
  | reverted (output : Bytes)
  | halted (reason : H)

/-- `BlockValidationError` variants used by the embedded code (the enum
declaration lives in `block/error.rs`; variant names and payloads are taken
from the use sites in the source). -/
inductive BlockValidationError (ε H : Type) where
  | transactionGasLimitMoreThanAvailableBlockGas
      (transactionGasLimit : Nat) (blockAvailableGas : Nat)
  | missingParentBeaconBlockRoot
  | cancunGenesisParentBeaconBlockRootNotZero (parentBeaconBlockRoot : B256)
  | beaconRootContractCall (parentBeaconBlockRoot : B256) (message : ε)
  | withdrawalRequestsContractCall (message : SysCallMessage ε H)
  | incrementBalanceFailed

/-- `BlockExecutionError`: a validation error, a backend (EVM) error, or an
internal message error (`BlockExecutionError::msg`). -/
inductive BlockExecutionError (ε H : Type) where
  | validation (v : BlockValidationError ε H)
  | evm (e : ε)
  | internalMsg (s : String)

/- ===== C1: EthBlockExecutor::execute_transaction_with_result_closure ===== -/

/-- The per-block mutable state of `EthBlockExecutor` relevant to
transaction execution: the backend (EVM + database) state, accumulated gas,
and the receipts list. -/
structure ExecutorState (σ R : Type) where
  evmState : σ
  gasUsed : Nat
  receipts : List R

/-- `EthBlockExecutor::execute_transaction_with_result_closure`
(eth/block.rs).  The backend is the `transact` parameter (`Evm::transact`),
which may transform the backend state and yields a result-and-state or an
error; `commit` is `State::commit`; `buildReceipt` is the receipt builder,
given the execution result and the cumulative gas.  The method's `&mut
self` is modelled by returning the executor state alongside the result. -/
def executeTransactionWithResultClosure {σ R ε H A : Type}
    (transact : σ → Except ε (ResultAndState H A × σ))
    (commit : σ → StateDiff A → σ)
    (buildReceipt : ExecutionResult H → StateDiff A → Nat → R)
    (blockGasLimit : Nat) (txGasLimit : Nat)
    (st : ExecutorState σ R) :
    Except (BlockExecutionError ε H) Nat × ExecutorState σ R :=
  let blockAvailableGas := blockGasLimit - st.gasUsed
  if txGasLimit > blockAvailableGas then
    (.error (.validation (.transactionGasLimitMoreThanAvailableBlockGas
        txGasLimit blockAvailableGas)), st)
  else
    match transact st.evmState with
    | .error e => (.error (.evm e), st)
    | .ok (ras, s) =>
      let gasUsed := ras.result.gasUsed
      let newGasUsed := st.gasUsed + gasUsed
      let receipt := buildReceipt ras.result ras.state newGasUsed
      (.ok gasUsed,
        { evmState := commit s ras.state
          gasUsed := newGasUsed
          receipts := st.receipts ++ [receipt] })

/- ===== C2: transact_beacon_root_contract_call (eip4788.rs) ===== -/

/-- `alloy_eips::eip4788::SYSTEM_ADDRESS` (opaque constant). -/
def SYSTEM_ADDRESS : Address := 0xfffffffffffffffffffffffffffffffffffffffe

/-- `alloy_eips::eip4788::BEACON_ROOTS_ADDRESS` (opaque constant). -/
def BEACON_ROOTS_ADDRESS : Address := 0xbEbc44782C7dB0a1A60Cb6fe97d0b483032FF1C7

/-- `transact_beacon_root_contract_call` (eip4788.rs).  The backend's
`Evm::transact_system_call` is the `sysCall` parameter, taking caller,
contract, call data and the backend state. -/
def transactBeaconRootContractCall {σ ε H A : Type}
    (spec : HardforkSpec)
    (parentBeaconBlockRoot : Option B256)
    (block : BlockEnv)
    (sysCall : Address → Address → Bytes → σ → Except ε (ResultAndState H A × σ))
    (s : σ) :
    Except (BlockExecutionError ε H) (Option (ResultAndState H A) × σ) :=
  if ¬ spec.isCancunActiveAtTimestamp block.timestamp then
    .ok (none, s)
  else
    match parentBeaconBlockRoot with
    | none => .error (.validation .missingParentBeaconBlockRoot)
    | some root =>
      if block.number = 0 then
        if root ≠ 0 then
          .error (.validation (.cancunGenesisParentBeaconBlockRootNotZero root))
        else
          .ok (none, s)
      else
        match sysCall SYSTEM_ADDRESS BEACON_ROOTS_ADDRESS [root] s with
        | .ok (res, s1) => .ok (some res, s1)
        | .error e => .error (.validation (.beaconRootContractCall root e))

/- ===== C3 / C9: EthEvm::transact_system_call (eth/mod.rs) ===== -/

/-- The transaction environment (`revm::context::TxEnv`) as built by
`EthEvm::transact_system_call`; `kind` is the call target. -/
structure TxEnv where
  caller : Address
  kind : Address
  nonce : Nat
  gasLimit : Nat
  value : Nat
  data : Bytes
  gasPrice : Nat
  chainId : Option Nat
  gasPriorityFee : Option Nat
  blobHashes : List B256
  maxFeePerBlobGas : Nat
  txType : Nat
  deriving Repr, DecidableEq

/-- The `EthEvm` state visible at this layer: the block environment, the
`cfg.disable_nonce_check` flag, and the remaining backend state (journal,
database, ...) as an opaque `σ`. -/
structure EthEvmState (σ : Type) where
  block : BlockEnv
  disableNonceCheck : Bool
  inner : σ

/-- `EthEvm::transact_system_call` (eth/mod.rs).  Builds the synthetic
system transaction, swaps the block gas limit to the transaction gas limit,
the base fee to zero and the nonce-check-disable flag to true, runs the
backend's `transact` (which observes the overridden environment and may
transform the inner state on both outcomes), swaps the three values back,
and on success retains only the called contract's entries in the result
state. -/
def ethEvmTransactSystemCall {σ ε H A : Type}
    (transact : TxEnv → BlockEnv → Bool → σ → Except ε (ResultAndState H A) × σ)
    (caller contract : Address) (data : Bytes)
    (st : EthEvmState σ) :
    Except ε (ResultAndState H A) × EthEvmState σ :=
  let tx : TxEnv :=
    { caller := caller
      kind := contract
      nonce := 0
      gasLimit := 30000000
      value := 0
      data := data
      gasPrice := 0
      chainId := none
      gasPriorityFee := none
      blobHashes := []
      maxFeePerBlobGas := 0
      txType := 0 }
  -- swap in: gas limit := tx gas limit, basefee := 0, nonce check disabled
  let savedGasLimit := st.block.gasLimit
  let savedBasefee := st.block.basefee
  let savedDisableNonceCheck := st.disableNonceCheck
  let overridden : BlockEnv := { st.block with gasLimit := tx.gasLimit, basefee := 0 }
  let out := transact tx overridden true st.inner
  -- swap back the previous gas limit, base fee and nonce check flag
  let restored : EthEvmState σ :=
    { block := { overridden with gasLimit := savedGasLimit, basefee := savedBasefee }
      disableNonceCheck := savedDisableNonceCheck
      inner := out.2 }
  -- retain only the contract account in the resulting changeset
  let res1 := match out.1 with
    | .ok ras => .ok { ras with state := ras.state.filter (fun p => p.1 = contract) }
    | .error e => .error e
  (res1, restored)

/- ===== C4: eip7002.rs ===== -/

/-- `alloy_eips::eip7002::SYSTEM_ADDRESS` (same constant as eip4788's). -/
def SYSTEM_ADDRESS_7002 : Address := 0xfffffffffffffffffffffffffffffffffffffffe

/-- `alloy_eips::eip7002::WITHDRAWAL_REQUEST_PREDEPLOY_ADDRESS`. -/
def WITHDRAWAL_REQUEST_PREDEPLOY_ADDRESS : Address :=
  0x00000961Ef480Eb55e80D19ad83579A64c007002

/-- `transact_withdrawal_requests_contract_call` (eip7002.rs): invokes the
withdrawal-requests predeploy as a system call with empty input; a backend
error is wrapped into the `WithdrawalRequestsContractCall` validation
error. -/
def transactWithdrawalRequestsContractCall {σ ε H A : Type}
    (sysCall : Address → Address → Bytes → σ → Except ε (ResultAndState H A × σ))
    (s : σ) :
    Except (BlockExecutionError ε H) (ResultAndState H A × σ) :=
  match sysCall SYSTEM_ADDRESS_7002 WITHDRAWAL_REQUEST_PREDEPLOY_ADDRESS [] s with
  | .ok res => .ok res
  | .error e =>
    .error (.validation (.withdrawalRequestsContractCall (.execFailed e)))

/-- `post_commit` (eip7002.rs): a successful result yields its output bytes
as the raw request payload; a revert or halt yields the
`WithdrawalRequestsContractCall` validation error carrying the revert
output or the halt reason. -/
def eip7002PostCommit {ε H : Type} (result : ExecutionResult H) :
    Except (BlockExecutionError ε H) Bytes :=
  match result with
  | .success _ _ _ output => .ok output.intoData
  | .revert _ output =>
    .error (.validation (.withdrawalRequestsContractCall (.reverted output)))
  | .halt reason _ =>
    .error (.validation (.withdrawalRequestsContractCall (.halted reason)))

/- ===== C6 / C7: block/state_changes.rs ===== -/

/-- First-match association-list lookup, the extensional model of
`HashMap::get`. -/
def alookup {α : Type} : List (Nat × α) → Nat → Option α
  | [], _ => none
  | (k, v) :: t, a => if k = a then some v else alookup t a

/-- Removal of a key, the extensional model of `HashMap::remove`. -/
def aremove {α : Type} (m : List (Nat × α)) (a : Nat) : List (Nat × α) :=
  m.filter (fun p => p.1 ≠ a)

/-- Lookup with default `0` (`entry(..).or_default()` reads). -/
def agetD (m : List (Nat × Nat)) (a : Nat) : Nat := (alookup m a).getD 0

/-- `*map.entry(a).or_default() += v`: the extensional model of the
increment-or-insert operation on `HashMap<Address, u128>`. -/
def mapAdd (m : List (Nat × Nat)) (a : Nat) (v : Nat) : List (Nat × Nat) :=
  aremove m a ++ [(a, agetD m a + v)]

/-- An EIP-4895 withdrawal (`alloy_eips::eip4895::Withdrawal`); `amount`
is denominated in Gwei. -/
structure Withdrawal where
  index : Nat
  validatorIndex : Nat
  address : Address
  amount : Nat
  deriving Repr, DecidableEq

/-- `Withdrawal::amount_wei`: Gwei to wei. -/
def Withdrawal.amountWei (w : Withdrawal) : Nat := w.amount * 1000000000

/-- The ommer-header fields consumed by the calculator
(`BlockHeader::beneficiary`, `BlockHeader::number`). -/
structure OmmerHeader where
  beneficiary : Address
  number : Nat
  deriving Repr, DecidableEq

/-- `insert_post_block_withdrawals_balance_increments`
(block/state_changes.rs): when Shanghai is active at the timestamp, adds
each nonzero-amount withdrawal's wei amount to its target address. -/
def insertPostBlockWithdrawalsBalanceIncrements
    (spec : HardforkSpec) (blockTimestamp : Nat)
    (withdrawals : Option (List Withdrawal))
    (balanceIncrements : List (Nat × Nat)) : List (Nat × Nat) :=
  if spec.isShanghaiActiveAtTimestamp blockTimestamp then
    match withdrawals with
    | some ws =>
      ws.foldl
        (fun m w => if w.amount > 0 then mapAdd m w.address w.amountWei else m)
        balanceIncrements
    | none => balanceIncrements
  else balanceIncrements

/-- `post_block_balance_increments` (block/state_changes.rs): reward
increments (when the base block reward is present) followed by withdrawal
increments. -/
def postBlockBalanceIncrements (spec : HardforkSpec) (blockEnv : BlockEnv)
    (ommers : List OmmerHeader) (withdrawals : Option (List Withdrawal)) :
    List (Nat × Nat) :=
  let afterRewards : List (Nat × Nat) :=
    match spec.baseBlockReward blockEnv.number with
    | some base =>
      let m := ommers.foldl
        (fun m o => mapAdd m o.beneficiary (spec.ommerReward base blockEnv.number o.number))
        []
      mapAdd m blockEnv.beneficiary (spec.blockReward base ommers.length)
    | none => []
  insertPostBlockWithdrawalsBalanceIncrements spec blockEnv.timestamp
    withdrawals afterRewards

/-- Account status flags of `revm::state::AccountStatus`; only `Touched` is
produced by this layer. -/
inductive AccountStatus where
  | touched
  | loaded
  deriving Repr, DecidableEq

/-- `revm::state::Account` as assembled by `balance_increment_state`, with
the account info kept opaque. -/
structure EvmAccount (I : Type) where
  info : I
  storage : List (Nat × Nat)
  status : AccountStatus
  transactionId : Nat

/-- The `load_account` closure of `balance_increment_state`: loading the
cache account may fail (database error, outer `none`) or find no account
(inner `none`); both become the same internal message error.  A found
account yields a touched record carrying the unmodified info and empty
storage. -/
def loadAccountForIncrement {I ε H : Type}
    (load : Nat → Option (Option I)) (a : Nat) :
    Except (BlockExecutionError ε H) (Nat × EvmAccount I) :=
  match load a with
  | none => .error (.internalMsg "could not load account for balance increment")
  | some none => .error (.internalMsg "could not load account for balance increment")
  | some (some info) => .ok (a, ⟨info, [], .touched, 0⟩)

/-- Short-circuiting `collect::<Result<_, _>>` over an iterator of
fallible items. -/
def collectExcept {α β E : Type} (f : α → Except E β) : List α → Except E (List β)
  | [] => .ok []
  | x :: t =>
    match f x with
    | .error e => .error e
    | .ok b =>
      match collectExcept f t with
      | .error e => .error e
      | .ok rest => .ok (b :: rest)

/-- `balance_increment_state` (block/state_changes.rs): filter out zero
increments, load each remaining account, and collect the touched-account
records, short-circuiting on the first load failure. -/
def balanceIncrementState {I ε H : Type}
    (balanceIncrements : List (Nat × Nat))
    (load : Nat → Option (Option I)) :
    Except (BlockExecutionError ε H) (List (Nat × EvmAccount I)) :=
  collectExcept (fun p => loadAccountForIncrement load p.1)
    (balanceIncrements.filter (fun p => p.2 ≠ 0))

/- ===== C5 / C8 / C10: precompiles.rs ===== -/

/-- Input for a precompile call (`PrecompileInput`); the `internals` state
hooks are outside the properties under study and are omitted. -/
structure PrecompileInput where
  data : Bytes
  gas : Nat
  caller : Address
  value : Nat

/-- `revm`'s `PrecompileError` at the interface boundary: the out-of-gas
variant, any other recoverable variant, and the fatal variant. -/
inductive PrecompileError where
  | outOfGas
  | other (msg : String)
  | fatal (msg : String)
  deriving Repr, DecidableEq

/-- `PrecompileError::is_oog`. -/
def PrecompileError.isOog : PrecompileError → Bool
  | .outOfGas => true
  | _ => false

/-- `revm`'s `PrecompileOutput`. -/
structure PrecompileOutput where
  gasUsed : Nat
  bytes : Bytes
  reverted : Bool
  deriving Repr, DecidableEq

/-- `PrecompileResult`. -/
abbrev PrecompileResult := Except PrecompileError PrecompileOutput

/-- A dynamic precompile (`DynPrecompile`): a callable from input to
result. -/
abbrev DynPrecompile := PrecompileInput → PrecompileResult

/-- A builtin precompile function (`PrecompileFn`): bytes and gas limit to
result. -/
abbrev PrecompileFn := Bytes → Nat → PrecompileResult

/-- The wrapping of a builtin function performed both by
`ensure_dynamic_precompiles` and by `get` on the builtin representation:
`move |input| precompile_fn(input.data, input.gas)`. -/
def wrapBuiltin (f : PrecompileFn) : DynPrecompile :=
  fun input => f input.data input.gas

/-- `HashMap::insert` modelled on association lists. -/
def ainsert {α : Type} (m : List (Nat × α)) (a : Nat) (v : α) : List (Nat × α) :=
  aremove m a ++ [(a, v)]

/-- `HashSet::insert` modelled on lists. -/
def sinsert (s : List Nat) (a : Nat) : List Nat :=
  s.filter (fun x => x ≠ a) ++ [a]

/-- `HashSet::remove` modelled on lists. -/
def sremove (s : List Nat) (a : Nat) : List Nat :=
  s.filter (fun x => x ≠ a)

/-- `DynPrecompiles`: the mutable precompile table plus the parallel
registered-address set. -/
structure DynPrecompiles where
  inner : List (Address × DynPrecompile)
  addresses : List Address

/-- `PrecompilesKind`: builtin (static table) or dynamic. -/
inductive PrecompilesKind where
  | builtin (table : List (Address × PrecompileFn))
  | dynamic (d : DynPrecompiles)

/-- `PrecompilesMap`: the current representation plus the optional fallback
lookup. -/
structure PrecompilesMap where
  precompiles : PrecompilesKind
  lookup : Option (Address → Option DynPrecompile)

/-- The conversion fold of `ensure_dynamic_precompiles`: every builtin
entry is wrapped and inserted into both the table and the address set. -/
def buildDyn (table : List (Address × PrecompileFn)) : DynPrecompiles :=
  table.foldl
    (fun d p =>
      { inner := ainsert d.inner p.1 (wrapBuiltin p.2)
        addresses := sinsert d.addresses p.1 })
    ⟨[], []⟩

/-- `PrecompilesMap::ensure_dynamic_precompiles`: converts the builtin
representation to the dynamic one; a no-op when already dynamic. -/
def ensureDynamicPrecompiles (pm : PrecompilesMap) : PrecompilesMap :=
  match pm.precompiles with
  | .builtin table => { pm with precompiles := .dynamic (buildDyn table) }
  | .dynamic _ => pm

/-- `PrecompilesMap::apply_precompile`: ensure dynamic, then insert or
remove (in both the table and the address set) according to the closure's
answer on the current entry. -/
def applyPrecompile (pm : PrecompilesMap) (address : Address)
    (f : Option DynPrecompile → Option DynPrecompile) : PrecompilesMap :=
  let pm1 := ensureDynamicPrecompiles pm
  match pm1.precompiles with
  | .dynamic d =>
    match f (alookup d.inner address) with
    | some transformed =>
      { pm1 with precompiles :=
          .dynamic ⟨ainsert d.inner address transformed, sinsert d.addresses address⟩ }
    | none =>
      { pm1 with precompiles :=
          .dynamic ⟨aremove d.inner address, sremove d.addresses address⟩ }
  | .builtin _ => pm1

/-- `PrecompilesMap::map_precompile`: ensure dynamic, then transform the
entry at the address when present (the address set is untouched). -/
def mapPrecompile (pm : PrecompilesMap) (address : Address)
    (f : DynPrecompile → DynPrecompile) : PrecompilesMap :=
  let pm1 := ensureDynamicPrecompiles pm
  match pm1.precompiles with
  | .dynamic d =>
    match alookup d.inner address with
    | some p =>
      { pm1 with precompiles :=
          .dynamic ⟨ainsert (aremove d.inner address) address (f p), d.addresses⟩ }
    | none => pm1
  | .builtin _ => pm1

/-- `PrecompilesMap::map_precompiles`: ensure dynamic, then rebuild the
table with every entry transformed (the address set is untouched). -/
def mapPrecompiles (pm : PrecompilesMap)
    (f : Address → DynPrecompile → DynPrecompile) : PrecompilesMap :=
  let pm1 := ensureDynamicPrecompiles pm
  match pm1.precompiles with
  | .dynamic d =>
    { pm1 with precompiles :=
        .dynamic ⟨d.inner.map (fun p => (p.1, f p.1 p.2)), d.addresses⟩ }
  | .builtin _ => pm1

/-- `PrecompilesMap::set_precompile_lookup`. -/
def setPrecompileLookup (pm : PrecompilesMap)
    (l : Address → Option DynPrecompile) : PrecompilesMap :=
  { pm with lookup := some l }

/-- `PrecompilesMap::get`: the static table first (wrapping a builtin
entry), then the fallback lookup. -/
def PrecompilesMap.get (pm : PrecompilesMap) (address : Address) :
    Option DynPrecompile :=
  let staticResult :=
    match pm.precompiles with
    | .builtin table => (alookup table address).map wrapBuiltin
    | .dynamic d => alookup d.inner address
  match staticResult with
  | some p => some p
  | none =>
    match pm.lookup with
    | some l => l address
    | none => none

/-- `PrecompilesMap::addresses`. -/
def addressesOf (pm : PrecompilesMap) : List Address :=
  match pm.precompiles with
  | .builtin table => table.map Prod.fst
  | .dynamic d => d.addresses

/-- `PrecompileProvider::warm_addresses` for `PrecompilesMap`. -/
def warmAddresses (pm : PrecompilesMap) : List Address :=
  addressesOf pm

/-- Interpreter status codes produced by `PrecompilesMap::run`. -/
inductive InstructionResult where
  | ret
  | revert
  | precompileOOG
  | precompileError
  deriving Repr, DecidableEq

/-- `revm`'s `Gas` as far as `run` uses it. -/
structure Gas where
  limit : Nat
  remaining : Nat
  deriving Repr, DecidableEq

/-- `Gas::new`. -/
def Gas.new (l : Nat) : Gas := ⟨l, l⟩

/-- `Gas::record_cost`: `none` models the underflow (returned `false`)
case. -/
def Gas.recordCost (g : Gas) (cost : Nat) : Option Gas :=
  if cost ≤ g.remaining then some ⟨g.limit, g.remaining - cost⟩ else none

/-- `revm`'s `InterpreterResult`. -/
structure InterpreterResult where
  result : InstructionResult
  gas : Gas
  output : Bytes
  deriving Repr, DecidableEq

/-- Outcome of `PrecompilesMap::run`: the gas-underflow assert, a fatal
error propagated as `Err`, or a normal completion (`Ok(None)` when the
address holds no precompile). -/
inductive RunOutcome where
  | panicked
  | fatalErr (msg : String)
  | completed (res : Option InterpreterResult)

/-- `PrecompilesMap::run` (the `PrecompileProvider` impl in
precompiles.rs). -/
def PrecompilesMap.run (pm : PrecompilesMap) (address : Address)
    (inputBytes : Bytes) (gasLimit : Nat) (caller : Address) (value : Nat) :
    RunOutcome :=
  match pm.get address with
  | none => .completed none
  | some p =>
    let result0 : InterpreterResult := ⟨.ret, Gas.new gasLimit, []⟩
    match p ⟨inputBytes, gasLimit, caller, value⟩ with
    | .ok output =>
      match result0.gas.recordCost output.gasUsed with
      | none => .panicked
      | some g =>
        .completed (some
          ⟨if output.reverted then .revert else .ret, g, output.bytes⟩)
    | .error (.fatal e) => .fatalErr e
    | .error e =>
      .completed (some
        ⟨if e.isOog then .precompileOOG else .precompileError,
          result0.gas, result0.output⟩)

/- ===== Theorems ===== -/

/-- Lookup after `mapAdd`: changed only at the added key, where the
increment accumulates onto the previous value. -/
theorem alookup_mapAdd (m : List (Nat × Nat)) (a v b : Nat) :
    alookup (mapAdd m a v) b =
      if b = a then some (agetD m a + v) else alookup m b := by
  have happ : ∀ (l1 l2 : List (Nat × Nat)) (c : Nat),
      alookup (l1 ++ l2) c =
        match alookup l1 c with
        | some x => some x
        | none => alookup l2 c := by
    intro l1 l2 c
    induction l1 with
    | nil => simp [alookup]
    | cons p t ih =>
      by_cases hp : p.1 = c
      · simp [alookup, hp]
      · simp [alookup, hp, ih]
  have hrem : ∀ (c : Nat), alookup (aremove m a) c =
      if c = a then none else alookup m c := by
    intro c
    induction m with
    | nil => simp [aremove, alookup]
    | cons p t ih =>
      by_cases hpa : p.1 = a
      · by_cases hca : c = a
        · simp [aremove, alookup, hpa, hca] at ih ⊢
          simpa [aremove] using ih
        · simp only [aremove, List.filter] at ih ⊢
          simp only [hpa] at ih ⊢
          simp only [decide_not, decide_True] at ih ⊢
          have : ¬ p.1 = c := by rw [hpa]; exact fun h => hca h.symm
          simp [alookup, this, hca] at ih ⊢
          simpa [aremove] using ih
      · by_cases hpc : p.1 = c
        · have hca : ¬ c = a := by rw [← hpc]; exact hpa
          simp [aremove, List.filter, hpa, alookup, hpc, hca]
        · simp only [aremove, List.filter] at ih ⊢
          simp [hpa, alookup, hpc] at ih ⊢
          simpa [aremove] using ih
  unfold mapAdd
  rw [happ, hrem]
  by_cases hba : b = a
  · simp [hba, alookup]
  · have hab : ¬ a = b := fun h => hba h.symm
    simp only [hba, if_false, alookup, hab]
    cases alookup m b <;> simp

/-- C1: when the transaction's gas limit exceeds the available block gas
(`block_gas_limit - gas_used_so_far`), `execute_transaction` (via
`execute_transaction_with_result_closure`) returns the gas-limit-exceeded
validation error carrying both numbers, the backend (`transact`) is never
invoked (the outcome is identical for every backend), the executor state is
returned unchanged, and a second call with the same transaction yields the
same error. -/
theorem executeTransaction_gas_limit_exceeded {σ R ε H A : Type}
    (transact : σ → Except ε (ResultAndState H A × σ))
    (commit : σ → StateDiff A → σ)
    (buildReceipt : ExecutionResult H → StateDiff A → Nat → R)
    (blockGasLimit txGasLimit : Nat) (st : ExecutorState σ R)
    (h : txGasLimit > blockGasLimit - st.gasUsed) :
    executeTransactionWithResultClosure transact commit buildReceipt
        blockGasLimit txGasLimit st =
      (.error (.validation (.transactionGasLimitMoreThanAvailableBlockGas
          txGasLimit (blockGasLimit - st.gasUsed))), st) ∧
    executeTransactionWithResultClosure transact commit buildReceipt
        blockGasLimit txGasLimit
        (executeTransactionWithResultClosure transact commit buildReceipt
          blockGasLimit txGasLimit st).2 =
      executeTransactionWithResultClosure transact commit buildReceipt
        blockGasLimit txGasLimit st := by
  have h1 : executeTransactionWithResultClosure transact commit buildReceipt
      blockGasLimit txGasLimit st =
      (.error (.validation (.transactionGasLimitMoreThanAvailableBlockGas
          txGasLimit (blockGasLimit - st.gasUsed))), st) := by
    unfold executeTransactionWithResultClosure
    simp [h]
  exact ⟨h1, by rw [h1]; exact h1⟩

/-- C1 witness. -/
theorem executeTransaction_gas_limit_exceeded_witness :
    executeTransactionWithResultClosure
        (σ := Unit) (R := Unit) (ε := Unit) (H := Unit) (A := Unit)
        (fun s => .ok (⟨.revert 0 [], []⟩, s)) (fun s _ => s) (fun _ _ _ => ())
        100 60 ⟨(), 50, []⟩ =
      (.error (.validation (.transactionGasLimitMoreThanAvailableBlockGas 60 50)), ⟨(), 50, []⟩) := by
  exact (executeTransaction_gas_limit_exceeded
    (fun s => .ok (⟨.revert 0 [], []⟩, s)) (fun s _ => s) (fun _ _ _ => ())
    100 60 ⟨(), 50, []⟩ (by decide)).1

/-- C2: with Cancun active at the block timestamp, the beacon-root
pre-block system call fails with `MissingParentBeaconBlockRoot` when the
root is absent; at block number zero it fails with
`CancunGenesisParentBeaconBlockRootNotZero` (carrying the root) when the
root is nonzero, and succeeds without invoking the backend (identical
outcome for every backend, state unchanged) when the root is zero. -/
theorem beaconRootCall_genesis_and_missing {σ ε H A : Type}
    (spec : HardforkSpec) (block : BlockEnv)
    (sysCall : Address → Address → Bytes → σ → Except ε (ResultAndState H A × σ))
    (s : σ)
    (hc : spec.isCancunActiveAtTimestamp block.timestamp = true) :
    (transactBeaconRootContractCall spec none block sysCall s =
      .error (.validation .missingParentBeaconBlockRoot)) ∧
    (∀ root : B256, block.number = 0 → root ≠ 0 →
      transactBeaconRootContractCall spec (some root) block sysCall s =
        .error (.validation (.cancunGenesisParentBeaconBlockRootNotZero root))) ∧
    (block.number = 0 →
      transactBeaconRootContractCall spec (some 0) block sysCall s =
        .ok (none, s)) := by
  refine ⟨?_, ?_, ?_⟩
  · unfold transactBeaconRootContractCall
    simp [hc]
  · intro root h0 hn
    unfold transactBeaconRootContractCall
    simp [hc, h0, hn]
  · intro h0
    unfold transactBeaconRootContractCall
    simp [hc, h0]

/-- A key is present in the association list exactly when lookup
succeeds. -/
theorem alookup_isSome_iff_mem_keys {α : Type} (m : List (Nat × α)) (a : Nat) :
    (alookup m a).isSome = true ↔ a ∈ m.map Prod.fst := by
  induction m with
  | nil => simp [alookup]
  | cons p t ih =>
    by_cases hp : p.1 = a
    · simp [alookup, hp]
    · have hpa : ¬ a = p.1 := fun h => hp h.symm
      simp [alookup, hp, ih, hpa]

/-- Lookup after the withdrawal fold of
`insert_post_block_withdrawals_balance_increments`: the increments of the
matching nonzero withdrawals accumulate onto the starting map. -/
theorem alookup_withdrawal_fold (ws : List Withdrawal)
    (m : List (Nat × Nat)) (a : Nat) :
    alookup
        (ws.foldl
          (fun m w => if w.amount > 0 then mapAdd m w.address w.amountWei else m)
          m) a =
      if ws.any (fun w => w.address == a && w.amount != 0) then
        some (agetD m a +
          ((ws.filter (fun w => w.address == a && w.amount != 0)).map
            Withdrawal.amountWei).sum)
      else alookup m a := by
  induction ws generalizing m with
  | nil => simp
  | cons w t ih =>
    rw [List.foldl_cons]
    by_cases hgt : w.amount > 0
    · by_cases haddr : w.address = a
      · have hrel : (w.address == a && w.amount != 0) = true := by
          simp [haddr, Nat.pos_iff_ne_zero.mp hgt]
        rw [if_pos hgt, haddr]
        rw [ih]
        have hget : agetD (mapAdd m a w.amountWei) a = agetD m a + w.amountWei := by
          unfold agetD
          rw [alookup_mapAdd]
          simp [agetD]
        have hlook : alookup (mapAdd m a w.amountWei) a =
            some (agetD m a + w.amountWei) := by
          rw [alookup_mapAdd]; simp
        by_cases hany : t.any (fun w => w.address == a && w.amount != 0) = true
        · simp only [List.any_cons, hrel, Bool.true_or, hany, if_true,
            List.filter_cons, hget]
          simp [Nat.add_assoc]
        · have hany' : t.any (fun w => w.address == a && w.amount != 0) = false :=
            Bool.eq_false_iff.mpr hany
          have hfil : t.filter (fun w => w.address == a && w.amount != 0) = [] := by
            rw [List.filter_eq_nil_iff]
            intro x hx hpx
            exact hany (List.any_eq_true.mpr ⟨x, hx, hpx⟩)
          simp [List.any_cons, hrel, hany', hlook, List.filter_cons, hfil]
      · have hrel : (w.address == a && w.amount != 0) = false := by
          simp [haddr]
        rw [if_pos hgt, ih]
        have hne : ¬ a = w.address := fun h => haddr h.symm
        have hget : agetD (mapAdd m w.address w.amountWei) a = agetD m a := by
          unfold agetD
          rw [alookup_mapAdd]
          simp [hne]
        have hlook : alookup (mapAdd m w.address w.amountWei) a = alookup m a := by
          rw [alookup_mapAdd]
          simp [hne]
        simp [List.any_cons, hrel, List.filter_cons, hget, hlook]
    · have h0 : w.amount = 0 := Nat.eq_zero_of_not_pos hgt
      have hrel : (w.address == a && w.amount != 0) = false := by
        simp [h0]
      rw [if_neg hgt, ih]
      simp [List.any_cons, hrel, List.filter_cons]

/-- Lookup distributes over list append, first list first. -/
theorem alookup_append {α : Type} (l1 l2 : List (Nat × α)) (c : Nat) :
    alookup (l1 ++ l2) c =
      match alookup l1 c with
      | some x => some x
      | none => alookup l2 c := by
  induction l1 with
  | nil => simp [alookup]
  | cons p t ih =>
    by_cases hp : p.1 = c
    · simp [alookup, hp]
    · simp [alookup, hp, ih]

/-- Lookup after key removal. -/
theorem alookup_aremove {α : Type} (m : List (Nat × α)) (a c : Nat) :
    alookup (aremove m a) c = if c = a then none else alookup m c := by
  induction m with
  | nil => simp [aremove, alookup]
  | cons p t ih =>
    by_cases hpa : p.1 = a
    · by_cases hca : c = a
      · simp only [aremove, List.filter, hpa] at ih ⊢
        simp only [hca, if_true] at ih ⊢
        simp only [decide_not, decide_True, Bool.not_true]
        simpa [aremove] using ih
      · simp only [aremove, List.filter, hpa] at ih ⊢
        simp only [decide_not, decide_True, Bool.not_true]
        have hpc : ¬ p.1 = c := by rw [hpa]; exact fun h => hca h.symm
        simp [alookup, hpc, hca] at ih ⊢
        simpa [aremove] using ih
    · by_cases hpc : p.1 = c
      · have hca : ¬ c = a := by rw [← hpc]; exact hpa
        simp [aremove, List.filter, hpa, alookup, hpc, hca]
      · simp only [aremove, List.filter] at ih ⊢
        simp [hpa, alookup, hpc] at ih ⊢
        simpa [aremove] using ih

/-- Lookup after insert-or-replace. -/
theorem alookup_ainsert {α : Type} (m : List (Nat × α)) (a : Nat) (v : α)
    (b : Nat) :
    alookup (ainsert m a v) b = if b = a then some v else alookup m b := by
  unfold ainsert
  rw [alookup_append, alookup_aremove]
  by_cases hba : b = a
  · simp [hba, alookup]
  · have hab : ¬ a = b := fun h => hba h.symm
    simp only [hba, if_false, alookup, hab]
    cases alookup m b <;> simp

/-- Key membership after key removal. -/
theorem mem_keys_aremove {α : Type} (m : List (Nat × α)) (a b : Nat) :
    b ∈ (aremove m a).map Prod.fst ↔ b ∈ m.map Prod.fst ∧ b ≠ a := by
  simp only [aremove, List.mem_map, List.mem_filter, decide_eq_true_eq]
  constructor
  · rintro ⟨x, ⟨hxm, hxa⟩, hxb⟩
    exact ⟨⟨x, hxm, hxb⟩, hxb ▸ hxa⟩
  · rintro ⟨⟨x, hxm, hxb⟩, hba⟩
    exact ⟨x, ⟨hxm, hxb ▸ hba⟩, hxb⟩

/-- Key membership after insert-or-replace. -/
theorem mem_keys_ainsert {α : Type} (m : List (Nat × α)) (a : Nat) (v : α)
    (b : Nat) :
    b ∈ (ainsert m a v).map Prod.fst ↔ b = a ∨ b ∈ m.map Prod.fst := by
  simp only [ainsert, List.map_append, List.mem_append, mem_keys_aremove,
    List.map_cons, List.map_nil, List.mem_singleton]
  by_cases hba : b = a
  · simp [hba]
  · simp [hba]

/-- Set membership after set insert. -/
theorem mem_sinsert (s : List Nat) (a b : Nat) :
    b ∈ sinsert s a ↔ b = a ∨ b ∈ s := by
  by_cases hba : b = a <;> simp [sinsert, List.mem_filter, hba]

/-- Set membership after set removal. -/
theorem mem_sremove (s : List Nat) (a b : Nat) :
    b ∈ sremove s a ↔ b ∈ s ∧ b ≠ a := by
  simp [sremove, List.mem_filter]

/-- The representation invariant of the dynamic precompiles: the
registered-address set holds exactly the keys of the table. -/
def DynInvariant (d : DynPrecompiles) : Prop :=
  ∀ a, a ∈ d.addresses ↔ a ∈ d.inner.map Prod.fst

/-- `ensure_dynamic_precompiles` always yields the dynamic
representation. -/
theorem ensureDynamic_always_dynamic (pm : PrecompilesMap) :
    ∃ d, (ensureDynamicPrecompiles pm).precompiles = .dynamic d := by
  unfold ensureDynamicPrecompiles
  cases h : pm.precompiles with
  | builtin table => exact ⟨buildDyn table, rfl⟩
  | dynamic d => exact ⟨d, h⟩

/-- `ensure_dynamic_precompiles` is a no-op on the dynamic
representation. -/
theorem ensureDynamic_of_dynamic (pm : PrecompilesMap) (d : DynPrecompiles)
    (h : pm.precompiles = .dynamic d) : ensureDynamicPrecompiles pm = pm := by
  unfold ensureDynamicPrecompiles
  rw [h]

/-- The conversion fold keeps the address set and the table keys in
sync. -/
theorem buildDyn_invariant (table : List (Address × PrecompileFn)) :
    DynInvariant (buildDyn table) := by
  have main : ∀ (t : List (Address × PrecompileFn)) (d0 : DynPrecompiles),
      DynInvariant d0 →
      DynInvariant (t.foldl
        (fun d p =>
          { inner := ainsert d.inner p.1 (wrapBuiltin p.2)
            addresses := sinsert d.addresses p.1 })
        d0) := by
    intro t
    induction t with
    | nil => intro d0 h; exact h
    | cons p tt ih =>
      intro d0 h
      rw [List.foldl_cons]
      apply ih
      intro a
      simp only [mem_sinsert, mem_keys_ainsert]
      rw [h a]
  exact main table ⟨[], []⟩ (fun a => by simp)

/-- Lookup is unchanged by the remainder of the conversion fold when the
key occurs nowhere in it. -/
theorem buildDyn_fold_lookup_notmem (t : List (Address × PrecompileFn))
    (addr : Nat) (h : addr ∉ t.map Prod.fst) (d0 : DynPrecompiles) :
    alookup
        (t.foldl
          (fun d p =>
            { inner := ainsert d.inner p.1 (wrapBuiltin p.2)
              addresses := sinsert d.addresses p.1 })
          d0).inner addr =
      alookup d0.inner addr := by
  induction t generalizing d0 with
  | nil => rfl
  | cons p tt ih =>
    simp only [List.map_cons, List.mem_cons] at h
    push_neg at h
    rw [List.foldl_cons, ih h.2]
    show alookup (ainsert d0.inner p.1 (wrapBuiltin p.2)) addr = alookup d0.inner addr
    rw [alookup_ainsert]
    simp [h.1]

/-- After the conversion fold, a key present in a duplicate-free builtin
table maps to the wrapped builtin function. -/
theorem buildDyn_lookup (table : List (Address × PrecompileFn))
    (hnd : (table.map Prod.fst).Nodup) (addr : Nat) (f : PrecompileFn)
    (hf : alookup table addr = some f) :
    alookup (buildDyn table).inner addr = some (wrapBuiltin f) := by
  have main : ∀ (t : List (Address × PrecompileFn)),
      (t.map Prod.fst).Nodup → alookup t addr = some f →
      ∀ d0 : DynPrecompiles,
      alookup
          (t.foldl
            (fun d p =>
              { inner := ainsert d.inner p.1 (wrapBuiltin p.2)
                addresses := sinsert d.addresses p.1 })
            d0).inner addr =
        some (wrapBuiltin f) := by
    intro t
    induction t with
    | nil => intro _ hf0; cases hf0
    | cons p tt ih =>
      intro hnd0 hf0 d0
      rw [List.map_cons] at hnd0
      have hcons := List.nodup_cons.mp hnd0
      rw [List.foldl_cons]
      by_cases hpa : p.1 = addr
      · have hff : f = p.2 := by
          simp [alookup, hpa] at hf0
          exact hf0.symm
        have hnm : addr ∉ tt.map Prod.fst := hpa ▸ hcons.1
        rw [buildDyn_fold_lookup_notmem tt addr hnm]
        show alookup (ainsert d0.inner p.1 (wrapBuiltin p.2)) addr =
          some (wrapBuiltin f)
        rw [alookup_ainsert]
        simp [hpa, hff]
      · have hf1 : alookup tt addr = some f := by
          simpa [alookup, hpa] using hf0
        exact ih hcons.2 hf1 _
  exact main table hnd hf ⟨[], []⟩

/-- C6: when the base block reward is `none`, `post_block_balance_increments`
returns exactly the withdrawal-derived map: with Shanghai active at the
block timestamp, the lookup of any address is the sum of the wei amounts of
the nonzero withdrawals targeting it (absent when there is none), and the
key set is exactly the set of addresses with some nonzero withdrawal, so
zero-amount withdrawals never appear as keys. -/
theorem postBlockBalanceIncrements_withdrawals_only
    (spec : HardforkSpec) (blockEnv : BlockEnv) (ommers : List OmmerHeader)
    (ws : List Withdrawal)
    (hb : spec.baseBlockReward blockEnv.number = none)
    (hs : spec.isShanghaiActiveAtTimestamp blockEnv.timestamp = true) :
    (∀ a, alookup (postBlockBalanceIncrements spec blockEnv ommers (some ws)) a =
      if ws.any (fun w => w.address == a && w.amount != 0) then
        some (((ws.filter (fun w => w.address == a && w.amount != 0)).map
          Withdrawal.amountWei).sum)
      else none) ∧
    (∀ a,
      a ∈ (postBlockBalanceIncrements spec blockEnv ommers (some ws)).map Prod.fst ↔
      ∃ w ∈ ws, w.address = a ∧ w.amount ≠ 0) := by
  have hmain : ∀ a,
      alookup (postBlockBalanceIncrements spec blockEnv ommers (some ws)) a =
        if ws.any (fun w => w.address == a && w.amount != 0) then
          some (((ws.filter (fun w => w.address == a && w.amount != 0)).map
            Withdrawal.amountWei).sum)
        else none := by
    intro a
    unfold postBlockBalanceIncrements insertPostBlockWithdrawalsBalanceIncrements
    rw [hb]
    simp only [hs, if_true]
    rw [alookup_withdrawal_fold]
    simp [agetD, alookup]
  refine ⟨hmain, fun a => ?_⟩
  rw [← alookup_isSome_iff_mem_keys, hmain a]
  by_cases hany : ws.any (fun w => w.address == a && w.amount != 0) = true
  · simp only [hany, if_true, Option.isSome_some, true_iff]
    rw [List.any_eq_true] at hany
    obtain ⟨w, hw, hp⟩ := hany
    rw [Bool.and_eq_true, beq_iff_eq, bne_iff_ne] at hp
    exact ⟨w, hw, hp.1, hp.2⟩
  · have hany' : ws.any (fun w => w.address == a && w.amount != 0) = false :=
      Bool.eq_false_iff.mpr hany
    simp only [hany', Bool.false_eq_true, if_false, Option.isSome_none,
      Bool.false_eq_true, false_iff]
    rintro ⟨w, hw, ha, hn⟩
    exact hany (List.any_eq_true.mpr ⟨w, hw, by simp [ha, hn]⟩)

/-- C6 witness: two withdrawals of 2 and 3 Gwei to address 5 accumulate to
5 Gwei in wei; a zero-amount withdrawal to address 6 leaves no key. -/
theorem postBlockBalanceIncrements_withdrawals_only_witness :
    alookup (postBlockBalanceIncrements
        ⟨fun _ => true, fun _ => true, fun _ => none, fun _ _ _ => 0, fun _ _ => 0⟩
        ⟨1, 100, 1000, 0, 9⟩ []
        (some [⟨0, 0, 5, 2⟩, ⟨1, 1, 5, 3⟩, ⟨2, 2, 6, 0⟩])) 5 =
      some 5000000000 ∧
    6 ∉ (postBlockBalanceIncrements
        ⟨fun _ => true, fun _ => true, fun _ => none, fun _ _ _ => 0, fun _ _ => 0⟩
        ⟨1, 100, 1000, 0, 9⟩ []
        (some [⟨0, 0, 5, 2⟩, ⟨1, 1, 5, 3⟩, ⟨2, 2, 6, 0⟩])).map Prod.fst := by
  have h := postBlockBalanceIncrements_withdrawals_only
    ⟨fun _ => true, fun _ => true, fun _ => none, fun _ _ _ => 0, fun _ _ => 0⟩
    ⟨1, 100, 1000, 0, 9⟩ [] [⟨0, 0, 5, 2⟩, ⟨1, 1, 5, 3⟩, ⟨2, 2, 6, 0⟩] rfl rfl
  refine ⟨(h.1 5).trans (by decide), fun hmem => ?_⟩
  have := (h.2 6).mp hmem
  revert this
  decide

/-- `collectExcept` over a list whose every element maps to `ok`. -/
theorem collectExcept_ok {α β E : Type} (f : α → Except E β) (g : α → β)
    (l : List α) (h : ∀ x ∈ l, f x = .ok (g x)) :
    collectExcept f l = .ok (l.map g) := by
  induction l with
  | nil => rfl
  | cons x t ih =>
    have hx := h x (List.mem_cons_self x t)
    have ht := ih fun y hy => h y (List.mem_cons_of_mem x hy)
    simp [collectExcept, hx, ht]

/-- `collectExcept` short-circuits to the (constant) error when some
element fails. -/
theorem collectExcept_error_constant {α β E : Type} (f : α → Except E β)
    (e : E) (hconst : ∀ x e1, f x = .error e1 → e1 = e)
    (l : List α) (hx : ∃ x ∈ l, ∃ e1, f x = .error e1) :
    collectExcept f l = .error e := by
  induction l with
  | nil => obtain ⟨x, hx0, _⟩ := hx; cases hx0
  | cons y t ih =>
    cases hfy : f y with
    | error e1 =>
      have := hconst y e1 hfy
      simp [collectExcept, hfy, this]
    | ok b =>
      have hxt : ∃ x ∈ t, ∃ e1, f x = .error e1 := by
        obtain ⟨x, hx0, e1, hfe⟩ := hx
        rcases List.mem_cons.mp hx0 with h | h
        · subst h; rw [hfy] at hfe; cases hfe
        · exact ⟨x, h, e1, hfe⟩
      simp [collectExcept, hfy, ih hxt]

/-- Every element of a successfully collected list mapped to `ok`. -/
theorem collectExcept_ok_forall {α β E : Type} (f : α → Except E β)
    (l : List α) (bs : List β) (h : collectExcept f l = .ok bs) :
    ∀ x ∈ l, ∃ b, f x = .ok b := by
  induction l generalizing bs with
  | nil => intro x hx; cases hx
  | cons y t ih =>
    intro x hx
    cases hfy : f y with
    | error e1 => rw [collectExcept, hfy] at h; cases h
    | ok b =>
      rw [collectExcept, hfy] at h
      cases ht : collectExcept f t with
      | error e1 => rw [ht] at h; cases h
      | ok rest =>
        rcases List.mem_cons.mp hx with hxy | hxt
        · exact ⟨b, hxy ▸ hfy⟩
        · exact ih rest ht x hxt

/-- C7: `balance_increment_state` succeeds exactly when every account with
a nonzero increment can be loaded, in which case the returned diff carries,
for precisely the nonzero-increment addresses, a touched record with the
unmodified loaded info and empty storage; any unloadable nonzero-increment
account yields the load-failure error; zero-increment addresses never
appear in the diff. -/
theorem balanceIncrementState_spec {I ε H : Type} [Inhabited I]
    (increments : List (Nat × Nat)) (load : Nat → Option (Option I)) :
    ((∀ p ∈ increments, p.2 ≠ 0 → ∃ i, load p.1 = some (some i)) →
      balanceIncrementState (ε := ε) (H := H) increments load =
        .ok ((increments.filter (fun p => p.2 ≠ 0)).map
          (fun p =>
            (p.1, ⟨((load p.1).getD none).getD default, [], .touched, 0⟩)))) ∧
    ((∃ p ∈ increments, p.2 ≠ 0 ∧ (load p.1 = none ∨ load p.1 = some none)) →
      balanceIncrementState (ε := ε) (H := H) increments load =
        .error (.internalMsg "could not load account for balance increment")) ∧
    (∀ st, balanceIncrementState (ε := ε) (H := H) increments load = .ok st →
      st.map Prod.fst = (increments.filter (fun p => p.2 ≠ 0)).map Prod.fst) := by
  refine ⟨?_, ?_, ?_⟩
  · intro h
    unfold balanceIncrementState
    apply collectExcept_ok
    intro p hp
    rw [List.mem_filter, decide_eq_true_eq] at hp
    obtain ⟨i, hi⟩ := h p hp.1 hp.2
    unfold loadAccountForIncrement
    rw [hi]
    simp [hi]
  · intro h
    unfold balanceIncrementState
    apply collectExcept_error_constant
    · intro p e1 hpe
      unfold loadAccountForIncrement at hpe
      revert hpe
      cases load p.1 with
      | none => intro hpe; cases hpe; rfl
      | some o =>
        cases o with
        | none => intro hpe; cases hpe; rfl
        | some i => intro hpe; cases hpe
    · obtain ⟨p, hp, hne, hbad⟩ := h
      refine ⟨p, List.mem_filter.mpr ⟨hp, by simpa using hne⟩, ?_⟩
      refine ⟨.internalMsg "could not load account for balance increment", ?_⟩
      unfold loadAccountForIncrement
      rcases hbad with hb | hb <;> rw [hb]
  · intro st hst
    have hall := collectExcept_ok_forall _ _ _ hst
    have hload : ∀ p ∈ increments, p.2 ≠ 0 → ∃ i, load p.1 = some (some i) := by
      intro p hp hne
      obtain ⟨b, hb⟩ := hall p (List.mem_filter.mpr ⟨hp, by simpa using hne⟩)
      unfold loadAccountForIncrement at hb
      revert hb
      cases hq : load p.1 with
      | none => intro hb; cases hb
      | some o =>
        cases o with
        | none => intro hb; cases hb
        | some i => intro _; exact ⟨i, rfl⟩
    have hok := collectExcept_ok (l := increments.filter (fun p => p.2 ≠ 0))
      (fun p => loadAccountForIncrement (ε := ε) (H := H) load p.1)
      (fun p => (p.1, ⟨((load p.1).getD none).getD default, [], .touched, 0⟩))
      (by
        intro p hp
        rw [List.mem_filter, decide_eq_true_eq] at hp
        obtain ⟨i, hi⟩ := hload p hp.1 hp.2
        simp [loadAccountForIncrement, hi])
    unfold balanceIncrementState at hst
    rw [hok] at hst
    cases hst
    simp [List.map_map, Function.comp]

/-- C7 witness. -/
theorem balanceIncrementState_spec_witness :
    (balanceIncrementState (I := Nat) (ε := Unit) (H := Unit)
        [(1, 5), (3, 0)]
        (fun a => if a = 1 then some (some 11) else
          if a = 2 then some none else none) =
      .ok [(1, ⟨11, [], .touched, 0⟩)]) ∧
    (balanceIncrementState (I := Nat) (ε := Unit) (H := Unit)
        [(2, 5)]
        (fun a => if a = 1 then some (some 11) else
          if a = 2 then some none else none) =
      .error (.internalMsg "could not load account for balance increment")) := by
  constructor
  · have h := (balanceIncrementState_spec (I := Nat) (ε := Unit) (H := Unit)
      [(1, 5), (3, 0)]
      (fun a => if a = 1 then some (some 11) else
        if a = 2 then some none else none)).1
    refine (h ?_).trans (by rfl)
    intro p hp hne
    rcases List.mem_cons.mp hp with h1 | h1
    · subst h1; exact ⟨11, rfl⟩
    · rcases List.mem_cons.mp h1 with h2 | h2
      · subst h2; cases hne rfl
      · cases h2
  · have h := (balanceIncrementState_spec (I := Nat) (ε := Unit) (H := Unit)
      [(2, 5)]
      (fun a => if a = 1 then some (some 11) else
        if a = 2 then some none else none)).2.1
    exact h ⟨(2, 5), List.mem_cons_self _ _, by decide, Or.inr rfl⟩

/-- C3: `transact_system_call` overrides the block gas limit, forces the
block base fee to zero and disables the nonce check only for the duration
of the backend call (the backend observes exactly the overridden
environment), and the prior block-environment values are restored in the
state returned to the caller, for every backend and hence on both the
success and the error path. -/
theorem transactSystemCall_env_override_scoped {σ ε H A : Type}
    (transact : TxEnv → BlockEnv → Bool → σ → Except ε (ResultAndState H A) × σ)
    (caller contract : Address) (data : Bytes) (st : EthEvmState σ) :
    ((ethEvmTransactSystemCall transact caller contract data st).2.block = st.block) ∧
    ((ethEvmTransactSystemCall transact caller contract data st).2.disableNonceCheck =
      st.disableNonceCheck) ∧
    ((ethEvmTransactSystemCall transact caller contract data st).1 =
      match (transact ⟨caller, contract, 0, 30000000, 0, data, 0, none, none, [], 0, 0⟩
          { st.block with gasLimit := 30000000, basefee := 0 } true st.inner).1 with
        | .ok ras => .ok { ras with state := ras.state.filter (fun p => p.1 = contract) }
        | .error e => .error e) := by
  refine ⟨?_, rfl, rfl⟩
  show ({ st.block with gasLimit := st.block.gasLimit, basefee := st.block.basefee }
      : BlockEnv) = st.block
  rfl

/-- C9: whenever `transact_system_call` succeeds, the returned state diff
only holds entries for the called contract address: entries the backend
produced for any other account are removed before the result is
returned. -/
theorem transactSystemCall_retains_only_contract {σ ε H A : Type}
    (transact : TxEnv → BlockEnv → Bool → σ → Except ε (ResultAndState H A) × σ)
    (caller contract : Address) (data : Bytes) (st : EthEvmState σ)
    (ras : ResultAndState H A)
    (h : (ethEvmTransactSystemCall transact caller contract data st).1 = .ok ras) :
    ras.state.Forall (fun p => p.1 = contract) := by
  unfold ethEvmTransactSystemCall at h
  simp only at h
  revert h
  cases (transact ⟨caller, contract, 0, 30000000, 0, data, 0, none, none, [], 0, 0⟩
      { st.block with gasLimit := 30000000, basefee := 0 } true st.inner).1 with
  | error e => intro h; cases h
  | ok ras0 =>
    intro h
    cases h
    rw [List.forall_iff_forall_mem]
    intro p hp
    simp only [List.mem_filter, decide_eq_true_eq] at hp
    exact hp.2

/-- C9 witness. -/
theorem transactSystemCall_retains_only_contract_witness :
    ([((7 : Address), (0 : Nat))] : StateDiff Nat).Forall (fun p => p.1 = 7) := by
  exact transactSystemCall_retains_only_contract
    (σ := Unit) (ε := Unit) (H := Unit) (A := Nat)
    (fun _ _ _ s => (.ok ⟨.revert 0 [], [(7, 0), (9, 1)]⟩, s))
    5 7 [] ⟨⟨1, 2, 3, 4, 5⟩, false, ()⟩ ⟨.revert 0 [], [(7, 0)]⟩ rfl

/-- C4: for the post-block withdrawal-requests system call, a successful
execution result yields its output bytes as the raw request payload; a
revert or halt yields the withdrawal-requests-contract-call validation
error carrying the revert output or the halt reason respectively; and a
backend error during the call is turned into that same validation error. -/
theorem withdrawalRequests_outcomes {σ ε H A : Type}
    (sysCall : Address → Address → Bytes → σ → Except ε (ResultAndState H A × σ))
    (s : σ) (e : ε)
    (he : sysCall SYSTEM_ADDRESS_7002 WITHDRAWAL_REQUEST_PREDEPLOY_ADDRESS [] s =
      .error e) :
    (∀ (g r : Nat) (l : List EvmLog) (o : EvmOutput),
      eip7002PostCommit (ε := ε) (H := H) (.success g r l o) = .ok o.intoData) ∧
    (∀ (g : Nat) (b : Bytes),
      eip7002PostCommit (ε := ε) (H := H) (.revert g b) =
        .error (.validation (.withdrawalRequestsContractCall (.reverted b)))) ∧
    (∀ (hr : H) (g : Nat),
      eip7002PostCommit (ε := ε) (H := H) (.halt hr g) =
        .error (.validation (.withdrawalRequestsContractCall (.halted hr)))) ∧
    (transactWithdrawalRequestsContractCall (A := A) sysCall s =
      .error (.validation (.withdrawalRequestsContractCall (.execFailed e)))) := by
  refine ⟨fun g r l o => rfl, fun g b => rfl, fun hr g => rfl, ?_⟩
  unfold transactWithdrawalRequestsContractCall
  rw [he]

/-- C4 witness. -/
theorem withdrawalRequests_outcomes_witness :
    eip7002PostCommit (ε := Unit) (H := Unit)
        (.success 1 0 [] (.call [2, 3])) = .ok [2, 3] ∧
    transactWithdrawalRequestsContractCall
        (σ := Unit) (ε := Unit) (H := Unit) (A := Unit)
        (fun _ _ _ _ => .error ()) () =
      .error (.validation (.withdrawalRequestsContractCall (.execFailed ()))) := by
  have h := withdrawalRequests_outcomes
    (σ := Unit) (ε := Unit) (H := Unit) (A := Unit)
    (fun _ _ _ _ => .error ()) () () rfl
  exact ⟨h.1 1 0 [] (.call [2, 3]), h.2.2.2⟩

/-- C2 witness. -/
theorem beaconRootCall_genesis_and_missing_witness :
    (transactBeaconRootContractCall
        (σ := Unit) (ε := Unit) (H := Unit) (A := Unit)
        ⟨fun _ => true, fun _ => true, fun _ => none, fun _ _ _ => 0, fun _ _ => 0⟩
        none ⟨0, 10, 100, 0, 7⟩ (fun _ _ _ s => .ok (⟨.revert 0 [], []⟩, s)) () =
      .error (.validation .missingParentBeaconBlockRoot)) ∧
    (transactBeaconRootContractCall
        (σ := Unit) (ε := Unit) (H := Unit) (A := Unit)
        ⟨fun _ => true, fun _ => true, fun _ => none, fun _ _ _ => 0, fun _ _ => 0⟩
        (some 5) ⟨0, 10, 100, 0, 7⟩ (fun _ _ _ s => .ok (⟨.revert 0 [], []⟩, s)) () =
      .error (.validation (.cancunGenesisParentBeaconBlockRootNotZero 5))) ∧
    (transactBeaconRootContractCall
        (σ := Unit) (ε := Unit) (H := Unit) (A := Unit)
        ⟨fun _ => true, fun _ => true, fun _ => none, fun _ _ _ => 0, fun _ _ => 0⟩
        (some 0) ⟨0, 10, 100, 0, 7⟩ (fun _ _ _ s => .ok (⟨.revert 0 [], []⟩, s)) () =
      .ok (none, ())) := by
  have h := beaconRootCall_genesis_and_missing
    (σ := Unit) (ε := Unit) (H := Unit) (A := Unit)
    ⟨fun _ => true, fun _ => true, fun _ => none, fun _ _ _ => 0, fun _ _ => 0⟩
    ⟨0, 10, 100, 0, 7⟩ (fun _ _ _ s => .ok (⟨.revert 0 [], []⟩, s)) () rfl
  exact ⟨h.1, h.2.1 5 rfl (by decide), h.2.2 rfl⟩

/-- C5: for a precompile resolved at an address, `PrecompilesMap::run`
propagates a fatal precompile error as an `Err` aborting the enclosing
execution; a non-fatal error completes with an interpreter result whose
status is the out-of-gas precompile signal exactly when the error is
out-of-gas and the generic precompile-error signal otherwise; and a
successful output completes with a Return or Revert result according to the
output's reverted flag, with the output's gas cost recorded against the gas
limit. -/
theorem precompilesRun_outcomes (pm : PrecompilesMap) (address : Address)
    (inputBytes : Bytes) (gasLimit : Nat) (caller : Address) (value : Nat)
    (p : DynPrecompile) (hget : pm.get address = some p) :
    (∀ e, p ⟨inputBytes, gasLimit, caller, value⟩ = .error (.fatal e) →
      pm.run address inputBytes gasLimit caller value = .fatalErr e) ∧
    (∀ err, p ⟨inputBytes, gasLimit, caller, value⟩ = .error err →
      (∀ msg, err ≠ .fatal msg) →
      pm.run address inputBytes gasLimit caller value =
        .completed (some
          ⟨if err.isOog then .precompileOOG else .precompileError,
            Gas.new gasLimit, []⟩)) ∧
    (∀ out, p ⟨inputBytes, gasLimit, caller, value⟩ = .ok out →
      out.gasUsed ≤ gasLimit →
      pm.run address inputBytes gasLimit caller value =
        .completed (some
          ⟨if out.reverted then .revert else .ret,
            ⟨gasLimit, gasLimit - out.gasUsed⟩, out.bytes⟩)) := by
  refine ⟨?_, ?_, ?_⟩
  · intro e he
    unfold PrecompilesMap.run
    rw [hget]
    simp [he]
  · intro err he hnf
    cases err with
    | outOfGas =>
      unfold PrecompilesMap.run
      rw [hget]
      simp [he, PrecompileError.isOog]
    | other msg =>
      unfold PrecompilesMap.run
      rw [hget]
      simp [he, PrecompileError.isOog]
    | fatal msg => cases hnf msg rfl
  · intro out ho hle
    unfold PrecompilesMap.run
    rw [hget]
    simp [ho, Gas.recordCost, Gas.new, hle]

/-- C5 witness. -/
theorem precompilesRun_outcomes_witness :
    (PrecompilesMap.run
        ⟨.dynamic ⟨[(4, fun _ => .error (.fatal "boom"))], [4]⟩, none⟩
        4 [] 10 0 0 = .fatalErr "boom") ∧
    (PrecompilesMap.run
        ⟨.dynamic ⟨[(4, fun _ => .error .outOfGas)], [4]⟩, none⟩
        4 [] 10 0 0 = .completed (some ⟨.precompileOOG, Gas.new 10, []⟩)) ∧
    (PrecompilesMap.run
        ⟨.dynamic ⟨[(4, fun i => .ok ⟨3, i.data, false⟩)], [4]⟩, none⟩
        4 [1, 2] 10 0 0 = .completed (some ⟨.ret, ⟨10, 7⟩, [1, 2]⟩)) := by
  refine ⟨?_, ?_, ?_⟩
  · exact (precompilesRun_outcomes
      ⟨.dynamic ⟨[(4, fun _ => .error (.fatal "boom"))], [4]⟩, none⟩
      4 [] 10 0 0 (fun _ => .error (.fatal "boom")) rfl).1 "boom" rfl
  · exact (precompilesRun_outcomes
      ⟨.dynamic ⟨[(4, fun _ => .error .outOfGas)], [4]⟩, none⟩
      4 [] 10 0 0 (fun _ => .error .outOfGas) rfl).2.1 .outOfGas rfl
      (fun msg hmsg => by cases hmsg)
  · exact (precompilesRun_outcomes
      ⟨.dynamic ⟨[(4, fun i => .ok ⟨3, i.data, false⟩)], [4]⟩, none⟩
      4 [1, 2] 10 0 0 (fun i => .ok ⟨3, i.data, false⟩) rfl).2.2
      ⟨3, [1, 2], false⟩ rfl (by decide)


/-- `apply_precompile` on a dynamic map: insert in or remove from both the
table and the address set according to the closure's answer. -/
theorem applyPrecompile_of_dynamic (pm : PrecompilesMap) (d : DynPrecompiles)
    (a : Address) (g : Option DynPrecompile → Option DynPrecompile)
    (h : pm.precompiles = .dynamic d) :
    applyPrecompile pm a g =
      match g (alookup d.inner a) with
      | some t =>
        { pm with precompiles :=
            .dynamic ⟨ainsert d.inner a t, sinsert d.addresses a⟩ }
      | none =>
        { pm with precompiles :=
            .dynamic ⟨aremove d.inner a, sremove d.addresses a⟩ } := by
  unfold applyPrecompile
  simp only [ensureDynamic_of_dynamic pm d h, h]

/-- `map_precompile` on a dynamic map: transform the entry when present,
leaving the address set untouched. -/
theorem mapPrecompile_of_dynamic (pm : PrecompilesMap) (d : DynPrecompiles)
    (a : Address) (g : DynPrecompile → DynPrecompile)
    (h : pm.precompiles = .dynamic d) :
    mapPrecompile pm a g =
      match alookup d.inner a with
      | some p =>
        { pm with precompiles :=
            .dynamic ⟨ainsert (aremove d.inner a) a (g p), d.addresses⟩ }
      | none => pm := by
  unfold mapPrecompile
  simp only [ensureDynamic_of_dynamic pm d h, h]

/-- `map_precompiles` on a dynamic map: rebuild the table with the same
keys, leaving the address set untouched. -/
theorem mapPrecompiles_of_dynamic (pm : PrecompilesMap) (d : DynPrecompiles)
    (g : Address → DynPrecompile → DynPrecompile)
    (h : pm.precompiles = .dynamic d) :
    mapPrecompiles pm g =
      { pm with precompiles :=
          .dynamic ⟨d.inner.map (fun p => (p.1, g p.1 p.2)), d.addresses⟩ } := by
  unfold mapPrecompiles
  simp only [ensureDynamic_of_dynamic pm d h, h]

/-- C8: converting a builtin precompiles map with
`ensure_dynamic_precompiles` yields the dynamic representation; every
address of the (duplicate-free) builtin table then resolves through `get`
to a callable whose result on any input data and gas limit is identical to
the builtin function's result on that data and gas limit; and the
conversion is one-way: `ensure_dynamic_precompiles` and every mutating
operation leave the map in the dynamic representation. -/
theorem ensureDynamic_preserves_builtin_behavior
    (pm : PrecompilesMap) (table : List (Address × PrecompileFn))
    (hpb : pm.precompiles = .builtin table)
    (hnd : (table.map Prod.fst).Nodup)
    (addr : Address) (f : PrecompileFn)
    (hf : alookup table addr = some f) :
    ((ensureDynamicPrecompiles pm).precompiles = .dynamic (buildDyn table)) ∧
    (∃ p, (ensureDynamicPrecompiles pm).get addr = some p ∧
      ∀ input, p input = f input.data input.gas) ∧
    (∀ pm1 : PrecompilesMap,
      ∃ d, (ensureDynamicPrecompiles pm1).precompiles = .dynamic d) ∧
    (∀ (pm1 : PrecompilesMap) (a : Address)
        (g : Option DynPrecompile → Option DynPrecompile),
      ∃ d, (applyPrecompile pm1 a g).precompiles = .dynamic d) ∧
    (∀ (pm1 : PrecompilesMap) (a : Address) (g : DynPrecompile → DynPrecompile),
      ∃ d, (mapPrecompile pm1 a g).precompiles = .dynamic d) ∧
    (∀ (pm1 : PrecompilesMap) (g : Address → DynPrecompile → DynPrecompile),
      ∃ d, (mapPrecompiles pm1 g).precompiles = .dynamic d) := by
  have hens : (ensureDynamicPrecompiles pm).precompiles = .dynamic (buildDyn table) := by
    unfold ensureDynamicPrecompiles
    rw [hpb]
  refine ⟨hens, ?_, ensureDynamic_always_dynamic, ?_, ?_, ?_⟩
  · refine ⟨wrapBuiltin f, ?_, fun input => rfl⟩
    unfold PrecompilesMap.get
    simp only [hens, buildDyn_lookup table hnd addr f hf]
  · intro pm1 a g
    obtain ⟨d, hd⟩ := ensureDynamic_always_dynamic pm1
    have heq := applyPrecompile_of_dynamic (ensureDynamicPrecompiles pm1) d a g hd
    have hself : applyPrecompile pm1 a g =
        applyPrecompile (ensureDynamicPrecompiles pm1) a g := by
      unfold applyPrecompile
      rw [ensureDynamic_of_dynamic (ensureDynamicPrecompiles pm1) d hd]
    rw [hself, heq]
    cases g (alookup d.inner a) with
    | some t => exact ⟨_, rfl⟩
    | none => exact ⟨_, rfl⟩
  · intro pm1 a g
    obtain ⟨d, hd⟩ := ensureDynamic_always_dynamic pm1
    have heq := mapPrecompile_of_dynamic (ensureDynamicPrecompiles pm1) d a g hd
    have hself : mapPrecompile pm1 a g =
        mapPrecompile (ensureDynamicPrecompiles pm1) a g := by
      unfold mapPrecompile
      rw [ensureDynamic_of_dynamic (ensureDynamicPrecompiles pm1) d hd]
    rw [hself, heq]
    cases alookup d.inner a with
    | some p0 => exact ⟨_, rfl⟩
    | none => exact ⟨d, hd⟩
  · intro pm1 g
    obtain ⟨d, hd⟩ := ensureDynamic_always_dynamic pm1
    have heq := mapPrecompiles_of_dynamic (ensureDynamicPrecompiles pm1) d g hd
    have hself : mapPrecompiles pm1 g =
        mapPrecompiles (ensureDynamicPrecompiles pm1) g := by
      unfold mapPrecompiles
      rw [ensureDynamic_of_dynamic (ensureDynamicPrecompiles pm1) d hd]
    rw [hself, heq]
    exact ⟨_, rfl⟩

/-- C8 witness: the identity-style builtin at address 1 behaves identically
through the converted dynamic map. -/
theorem ensureDynamic_preserves_builtin_behavior_witness :
    ((ensureDynamicPrecompiles
        ⟨.builtin [(1, fun d g => .ok ⟨g, d, false⟩),
          (2, fun _ _ => .error .outOfGas)], none⟩).get 1).map
      (fun p => p ⟨[7], 9, 0, 0⟩) = some (.ok ⟨9, [7], false⟩) := by
  obtain ⟨hkind, ⟨p, hp, hall⟩, hrest⟩ := ensureDynamic_preserves_builtin_behavior
    ⟨.builtin [(1, fun d g => .ok ⟨g, d, false⟩),
      (2, fun _ _ => .error .outOfGas)], none⟩
    [(1, fun d g => .ok ⟨g, d, false⟩), (2, fun _ _ => .error .outOfGas)]
    rfl (by decide) 1 (fun d g => .ok ⟨g, d, false⟩) rfl
  rw [hp]
  simp [hall ⟨[7], 9, 0, 0⟩]

/-- C10: the registered-address set of the dynamic representation equals
the key set of the precompile table after every operation: the conversion
establishes the invariant, and apply/map/map-all preserve it; under the
invariant, `addresses` (and `warm_addresses`, which equals it) enumerate
exactly the addresses at which the table (ignoring the fallback lookup)
holds a precompile. -/
theorem dynPrecompiles_addresses_invariant :
    (∀ (pm : PrecompilesMap) (table : List (Address × PrecompileFn)),
      pm.precompiles = .builtin table →
      ∀ d, (ensureDynamicPrecompiles pm).precompiles = .dynamic d →
        DynInvariant d) ∧
    (∀ (pm : PrecompilesMap) (d : DynPrecompiles) (a : Address)
        (g : Option DynPrecompile → Option DynPrecompile) (e : DynPrecompiles),
      pm.precompiles = .dynamic d → DynInvariant d →
      (applyPrecompile pm a g).precompiles = .dynamic e → DynInvariant e) ∧
    (∀ (pm : PrecompilesMap) (d : DynPrecompiles) (a : Address)
        (g : DynPrecompile → DynPrecompile) (e : DynPrecompiles),
      pm.precompiles = .dynamic d → DynInvariant d →
      (mapPrecompile pm a g).precompiles = .dynamic e → DynInvariant e) ∧
    (∀ (pm : PrecompilesMap) (d : DynPrecompiles)
        (g : Address → DynPrecompile → DynPrecompile) (e : DynPrecompiles),
      pm.precompiles = .dynamic d → DynInvariant d →
      (mapPrecompiles pm g).precompiles = .dynamic e → DynInvariant e) ∧
    (∀ (pm : PrecompilesMap) (d : DynPrecompiles),
      pm.precompiles = .dynamic d → DynInvariant d →
      (∀ a, a ∈ addressesOf pm ↔ (alookup d.inner a).isSome = true) ∧
      warmAddresses pm = addressesOf pm) := by
  refine ⟨?_, ?_, ?_, ?_, ?_⟩
  · intro pm table hpb d hd
    have hens : (ensureDynamicPrecompiles pm).precompiles = .dynamic (buildDyn table) := by
      unfold ensureDynamicPrecompiles
      rw [hpb]
    rw [hens] at hd
    cases hd
    exact buildDyn_invariant table
  · intro pm d a g e hpd hinv he
    rw [applyPrecompile_of_dynamic pm d a g hpd] at he
    revert he
    cases g (alookup d.inner a) with
    | some t =>
      intro he
      simp only at he
      cases he
      intro b
      simp only [mem_sinsert, mem_keys_ainsert]
      rw [hinv b]
    | none =>
      intro he
      simp only at he
      cases he
      intro b
      simp only [mem_sremove, mem_keys_aremove]
      rw [hinv b]
  · intro pm d a g e hpd hinv he
    rw [mapPrecompile_of_dynamic pm d a g hpd] at he
    revert he
    cases hl : alookup d.inner a with
    | none =>
      intro he
      simp only at he
      rw [hpd] at he
      cases he
      exact hinv
    | some p0 =>
      intro he
      simp only at he
      cases he
      intro b
      have hmem : a ∈ d.inner.map Prod.fst := by
        rw [← alookup_isSome_iff_mem_keys, hl]
        rfl
      simp only [mem_keys_ainsert, mem_keys_aremove]
      rw [hinv b]
      by_cases hba : b = a
      · subst hba
        simp [hmem]
      · simp [hba]
  · intro pm d g e hpd hinv he
    rw [mapPrecompiles_of_dynamic pm d g hpd] at he
    simp only at he
    cases he
    intro b
    have hkeys : (d.inner.map (fun p => (p.1, g p.1 p.2))).map Prod.fst =
        d.inner.map Prod.fst := by
      rw [List.map_map]
      rfl
    simp only [hkeys]
    exact hinv b
  · intro pm d hpd hinv
    constructor
    · intro a
      rw [alookup_isSome_iff_mem_keys]
      show a ∈ addressesOf pm ↔ _
      unfold addressesOf
      rw [hpd]
      exact hinv a
    · rfl

/-- C10 witness. -/
theorem dynPrecompiles_addresses_invariant_witness :
    (3 ∈ (DynPrecompiles.mk
        [(3, wrapBuiltin (fun _ _ => .error .outOfGas))] [3]).addresses ↔
      3 ∈ (DynPrecompiles.mk
        [(3, wrapBuiltin (fun _ _ => .error .outOfGas))] [3]).inner.map Prod.fst) := by
  exact (dynPrecompiles_addresses_invariant.1
    ⟨.builtin [(3, fun _ _ => .error .outOfGas)], none⟩
    [(3, fun _ _ => .error .outOfGas)] rfl
    ⟨[(3, wrapBuiltin (fun _ _ => .error .outOfGas))], [3]⟩ rfl) 3
